import Mathlib

/-!
Shallow embedding of the api-router request-forwarding core, together with
proofs checking the natural-language specification against the code.

Conventions of the embedding:
* Rust `String`/`&str` and byte buffers (`&[u8]`, `Vec<u8>`) are modelled as
  `List Char`; the ASCII markers the code searches for make the two views
  coincide on every input the claims quantify over.  UTF-8 decoding of header
  regions is modelled as the identity on the character sequence.
* Rust `HashMap<String, String>` is modelled as an association list with
  key-replacing insert (a `HashMap` never holds duplicate keys).
* Rust `f64` arithmetic of the token bucket is modelled over `ℚ`; the
  claims under check are about the exact algebraic structure of the
  algorithm, not about rounding.
* Fallible Rust functions returning `RouterResult<T>` become
  `Except RouterError T`.
-/

namespace ApiRouter

/-! ## Basic character and list helpers mirroring Rust std behaviour -/

/-- ASCII lowercasing of a single character, as used by
`str::eq_ignore_ascii_case` / `u8::to_ascii_lowercase`. -/
def asciiLower (c : Char) : Char :=
  if 'A' ≤ c ∧ c ≤ 'Z' then Char.ofNat (c.toNat + 32) else c

/-- Rust `str::eq_ignore_ascii_case`. -/
def eqIgnoreAsciiCase (a b : List Char) : Bool :=
  a.map asciiLower == b.map asciiLower

/-- Rust `char::is_whitespace` (the Unicode `White_Space` property). -/
def rustIsWhitespace (c : Char) : Bool :=
  let n := c.toNat
  (0x09 ≤ n && n ≤ 0x0D) || n = 0x20 || n = 0x85 || n = 0xA0 || n = 0x1680 ||
    (0x2000 ≤ n && n ≤ 0x200A) || n = 0x2028 || n = 0x2029 || n = 0x202F ||
    n = 0x205F || n = 0x3000

/-- Rust `str::trim`: drop Unicode whitespace from both ends. -/
def rustTrim (l : List Char) : List Char :=
  ((l.dropWhile rustIsWhitespace).reverse.dropWhile rustIsWhitespace).reverse

/-- Does `l` start with the segment `pat`? (Rust `starts_with` on slices.) -/
def startsWithSeg : List Char → List Char → Bool
  | _, [] => true
  | [], _ :: _ => false
  | c :: cs, p :: ps => c = p && startsWithSeg cs ps

/-- Rust `str::split_once(char)`: split at the first occurrence of `sep`,
the separator removed. -/
def splitOnceChar : List Char → Char → Option (List Char × List Char)
  | [], _ => none
  | c :: rest, sep =>
    if c = sep then some ([], rest)
    else (splitOnceChar rest sep).map (fun p => (c :: p.1, p.2))

/-- Rust `str::split_once(&str)`: split at the first occurrence of the
segment `pat`, the separator removed. -/
def splitOnceSeg (l pat : List Char) : Option (List Char × List Char) :=
  match l with
  | [] => if startsWithSeg [] pat then some ([], []) else none
  | c :: cs =>
    if startsWithSeg l pat then some ([], l.drop pat.length)
    else (splitOnceSeg cs pat).map (fun p => (c :: p.1, p.2))

/-- Rust `slice::windows(pat.len()).position(|w| w == pat)`: index of the
first occurrence of the segment `pat` inside `l`. -/
def findSegIdx (l pat : List Char) : Option Nat :=
  match l with
  | [] => if startsWithSeg [] pat then some 0 else none
  | _ :: cs =>
    if startsWithSeg l pat then some 0
    else (findSegIdx cs pat).map (· + 1)

/-- Rust `str::split("\r\n")`: split at every (non-overlapping, leftmost)
occurrence of CRLF, keeping empty pieces. -/
def splitCRLF : List Char → List (List Char)
  | [] => [[]]
  | '\r' :: '\n' :: rest => [] :: splitCRLF rest
  | c :: rest =>
    match splitCRLF rest with
    | [] => [[c]]
    | p :: ps => (c :: p) :: ps

/-- Worker for `rustSplitWhitespace`: `cur` holds the (reversed) token
currently being accumulated. -/
def splitWsAux : List Char → List Char → List (List Char)
  | [], cur => if cur.isEmpty then [] else [cur.reverse]
  | c :: cs, cur =>
    if rustIsWhitespace c then
      if cur.isEmpty then splitWsAux cs [] else cur.reverse :: splitWsAux cs []
    else splitWsAux cs (c :: cur)

/-- Rust `str::split_whitespace`: maximal runs of non-whitespace characters,
never producing empty tokens. -/
def rustSplitWhitespace (l : List Char) : List (List Char) :=
  splitWsAux l []

/-- Rust `str::parse::<u16>()`: optional leading `+`, one or more ASCII
digits, value within `u16` range. -/
def parseU16 (l : List Char) : Option Nat :=
  let digits := match l with | '+' :: rest => rest | _ => l
  if digits.isEmpty then none
  else if digits.all (fun c => '0' ≤ c && c ≤ '9') then
    let v := digits.foldl (fun acc c => acc * 10 + (c.toNat - 48)) 0
    if v ≤ 65535 then some v else none
  else none

/-! ## Error taxonomy (`src/errors.rs`) and status mapping
(`src/handlers/response.rs::map_error_to_response`) -/

/-- `RouterError` from `src/errors.rs`. -/
inductive RouterError where
  | url (msg : String)
  | io (msg : String)
  | configRead (msg : String)
  | configParse (msg : String)
  | json (msg : String)
  | upstream (msg : String)
  | tls (msg : String)
  | badRequest (msg : String)
deriving Repr, DecidableEq

/-- The HTTP status code of the response built by
`map_error_to_response` (`src/handlers/response.rs`). -/
def statusOfError : RouterError → Nat
  | .badRequest _ => 400
  | .configRead _ => 500
  | .configParse _ => 500
  | .url _ => 502
  | .tls _ => 502
  | .upstream _ => 502
  | .io _ => 500
  | .json _ => 400

/-! ## URL parser (`src/url_parser.rs`) -/

/-- `Url` from `src/url_parser.rs`. -/
structure Url where
  scheme : List Char
  host : List Char
  port : Option Nat
  path : List Char
  query : Option (List Char)
deriving Repr, DecidableEq

/-- The authority/path-query split inside `Url::parse`
(`src/url_parser.rs` lines 30-36): try the first `/`, then the first `?`,
else the whole remainder is the authority with path `/`. -/
def splitAuthority (rest : List Char) : List Char × List Char :=
  match splitOnceChar rest '/' with
  | some (hp, pq) => (hp, '/' :: pq)
  | none =>
    match splitOnceChar rest '?' with
    | some (hp, q) => (hp, '/' :: '?' :: q)
    | none => (rest, ['/'])

/-- `Url::parse` from `src/url_parser.rs`. -/
def Url.parse (input : List Char) : Except RouterError Url :=
  let url := rustTrim input
  match splitOnceSeg url "://".data with
  | none => .error (.url "Missing scheme")
  | some (scheme, rest) =>
    if scheme ≠ "http".data ∧ scheme ≠ "https".data then
      .error (.url ("Unsupported scheme: " ++ String.mk scheme))
    else
      let (hostPort, pathQuery) := splitAuthority rest
      let hostPortParsed : Except RouterError (List Char × Option Nat) :=
        match splitOnceChar hostPort ':' with
        | some (h, p) =>
          match parseU16 p with
          | some port => .ok (h, some port)
          | none => .error (.url ("Invalid port: " ++ String.mk p))
        | none => .ok (hostPort, none)
      match hostPortParsed with
      | .error e => .error e
      | .ok (host, port) =>
        if host.isEmpty then .error (.url "Missing host")
        else
          let (path, query) : List Char × Option (List Char) :=
            match splitOnceChar pathQuery '?' with
            | some (p, q) => (p, some q)
            | none => (pathQuery, none)
          .ok { scheme := scheme, host := host, port := port,
                path := path, query := query }

/-- `Url::port_or_known_default` from `src/url_parser.rs`. -/
def Url.portOrKnownDefault (u : Url) : Nat :=
  u.port.getD (if u.scheme = "https".data then 443 else 80)

/-! ## `HashMap<String, String>` model -/

/-- A string-keyed map, as an association list.  `Str` abbreviates the
byte/char-sequence view of Rust strings used throughout. -/
abbrev Str := List Char

/-- Association-list model of `HashMap<String, String>`. -/
abbrev HMap := List (Str × Str)

/-- `HashMap::get`. -/
def hmGet (m : HMap) (k : Str) : Option Str :=
  (m.find? (fun p => p.1 = k)).map (·.2)

/-- `HashMap::insert`: replace the value when the (exact) key is present,
append otherwise.  A Rust `HashMap` never holds duplicate keys, so the
replace-all formulation agrees with it. -/
def hmInsert (m : HMap) (k v : Str) : HMap :=
  if m.any (fun p => p.1 = k) then
    m.map (fun p => if p.1 = k then (k, v) else p)
  else m ++ [(k, v)]

/-- The keys of the map. -/
def hmKeys (m : HMap) : List Str := m.map (·.1)

/-- `has_header_case_insensitive` from `src/handlers/plan.rs`:
`headers.keys().any(|key| key.eq_ignore_ascii_case(target))`. -/
def hasHeaderCaseInsensitive (m : HMap) (target : Str) : Bool :=
  m.any (fun p => eqIgnoreAsciiCase p.1 target)

/-! ## HTTP request parser (`src/handlers/parser.rs`) -/

/-- `ParsedRequest` from `src/handlers/parser.rs`. -/
structure ParsedRequest where
  method : Str
  target : Str
  version : Str
  headers : HMap
  body : Str
deriving Repr, DecidableEq

/-- Rust `str::to_lowercase` restricted to ASCII input (header names); the
sources only ever feed it ASCII header names. -/
def rustToLowercase (l : Str) : Str := l.map asciiLower

/-- `parse_http_request` from `src/handlers/parser.rs`.  UTF-8 validation of
the header region is modelled as the identity on the character sequence. -/
def parseHttpRequest (requestBytes : Str) : Except RouterError ParsedRequest :=
  match findSegIdx requestBytes "\r\n\r\n".data with
  | none => .error (.badRequest "Malformed HTTP request")
  | some headerEnd =>
    let headerStr := requestBytes.take headerEnd
    match splitCRLF headerStr with
    | [] => .error (.badRequest "Missing request line")
    | requestLine :: headerLines =>
      let parts := rustSplitWhitespace requestLine
      if parts.length < 3 then .error (.badRequest "Invalid request line")
      else
        let headers := headerLines.foldl
          (fun acc line =>
            match splitOnceChar line ':' with
            | some (name, value) =>
              hmInsert acc (rustToLowercase (rustTrim name)) (rustTrim value)
            | none => acc)
          ([] : HMap)
        let body := requestBytes.drop (headerEnd + 4)
        .ok { method := parts[0]?.getD [], target := parts[1]?.getD [],
              version := parts[2]?.getD [], headers := headers, body := body }

/-- `ParsedRequest::route_path` from `src/handlers/parser.rs`. -/
def ParsedRequest.routePath (r : ParsedRequest) : Str :=
  match splitOnceChar r.target '?' with
  | some (path, _) => path
  | none => r.target

/-- `parse_authorization_header` from `src/handlers/parser.rs`. -/
def parseAuthorizationHeader (value : Str) : Option Str :=
  let trimmed := rustTrim value
  if trimmed.isEmpty then none
  else
    let parts := rustSplitWhitespace trimmed
    let scheme := parts[0]?.getD []
    if eqIgnoreAsciiCase scheme "bearer".data then parts[1]?
    else some trimmed

/-- `extract_client_api_key` from `src/handlers/parser.rs`. -/
def extractClientApiKey (headers : HMap) (defaultApiKey : Str) : Str :=
  (((hmGet headers "authorization".data).bind parseAuthorizationHeader).filter
      (fun token => !token.isEmpty)).getD defaultApiKey

/-! ## Config model (`src/config.rs`, fields the planner consumes) -/

/-- The slice of `EndpointConfig` (`src/config.rs`) the claims need. -/
structure EndpointConfig where
  upstreamPath : Option Str := none
  method : Option Str := none
  headers : HMap := []
deriving Repr, DecidableEq

/-- The slice of `ApiConfig` (`src/config.rs`) the claims need. -/
structure ApiConfig where
  baseUrl : Str := []
  headers : HMap := []
  modelMapping : Option HMap := none
  endpoints : List (Str × EndpointConfig) := []
deriving Repr, DecidableEq

/-- `ApiConfig::endpoint(route)` resolution: the endpoints map lookup with a
default `EndpointConfig` when absent. -/
def ApiConfig.endpoint (c : ApiConfig) (route : Str) : EndpointConfig :=
  ((c.endpoints.find? (fun p => p.1 = route)).map (·.2)).getD {}

/-! ## Forward planner (`src/handlers/plan.rs`) -/

/-- `map_model_name` from `src/handlers/plan.rs`: look the model up in
`config.model_mapping`, fall back to the original name. -/
def mapModelName (config : ApiConfig) (model : Str) : Str :=
  (((config.modelMapping.bind (fun mapping => hmGet mapping model))).getD model)

/-- `copy_header_if_present` from `src/handlers/plan.rs`. -/
def copyHeaderIfPresent (headers : HMap) (clientHeaders : HMap)
    (clientKey canonicalKey : Str) : HMap :=
  if !hasHeaderCaseInsensitive headers canonicalKey then
    match hmGet clientHeaders clientKey with
    | some value => hmInsert headers canonicalKey value
    | none => headers
  else headers

/-- `build_upstream_headers` from `src/handlers/plan.rs`: layer global
headers, endpoint headers, the optional content-type override, the
authorization fallback, then copy `Accept` / `User-Agent` / `x-request-id`
from the client. -/
def buildUpstreamHeaders (config : ApiConfig) (endpoint : EndpointConfig)
    (clientHeaders : HMap) (defaultApiKey : Str) (contentType : Option Str) :
    HMap :=
  let headers := config.headers.foldl (fun m p => hmInsert m p.1 p.2) []
  let headers := endpoint.headers.foldl (fun m p => hmInsert m p.1 p.2) headers
  let headers :=
    match contentType with
    | some ct => hmInsert headers "Content-Type".data ct
    | none => headers
  let headers :=
    if !hasHeaderCaseInsensitive headers "authorization".data then
      match hmGet clientHeaders "authorization".data with
      | some auth => hmInsert headers "Authorization".data auth
      | none =>
        hmInsert headers "Authorization".data ("Bearer ".data ++ defaultApiKey)
    else headers
  let headers := copyHeaderIfPresent headers clientHeaders "accept".data "Accept".data
  let headers := copyHeaderIfPresent headers clientHeaders "user-agent".data "User-Agent".data
  copyHeaderIfPresent headers clientHeaders "x-request-id".data "x-request-id".data

/-! ## HTTP client wire request (`src/http_client.rs`) -/

/-- `ConnectionKey` from `src/http_client.rs`. -/
structure ConnectionKey where
  scheme : Str
  host : Str
  port : Nat
deriving Repr, DecidableEq

/-- `ConnectionKey::from_url`: `port_or_known_default` always returns a
value, so the trailing `unwrap_or` never fires. -/
def connectionKeyFromUrl (u : Url) : ConnectionKey :=
  { scheme := u.scheme, host := u.host, port := u.portOrKnownDefault }

/-- Decimal rendering of a length, as `format!("{}", n)`. -/
def natToStr (n : Nat) : Str := (toString n).data

/-- `build_request_bytes` from `src/http_client.rs`, one list element per
`extend_from_slice` call; the wire request is the concatenation. -/
def buildRequestChunks (method path host : Str) (headers : HMap)
    (body : Option Str) : List Str :=
  [method ++ " ".data ++ path ++ " HTTP/1.1\r\n".data,
   "Host: ".data ++ host ++ "\r\n".data,
   "Connection: keep-alive\r\n".data]
  ++ headers.map (fun p => p.1 ++ ": ".data ++ p.2 ++ "\r\n".data)
  ++ (match body with
      | some b =>
        ["Content-Length: ".data ++ natToStr b.length ++ "\r\n".data,
         "\r\n".data, b]
      | none => ["\r\n".data])

/-- The wire bytes of `build_request_bytes`. -/
def buildRequestBytes (method path host : Str) (headers : HMap)
    (body : Option Str) : Str :=
  (buildRequestChunks method path host headers body).flatten

/-- `path_with_query` from `src/http_client.rs`. -/
def pathWithQuery (u : Url) : Str :=
  match u.query with
  | some q => u.path ++ "?".data ++ q
  | none => u.path

/-- The request bytes `send_http_request` (`src/http_client.rs`) writes on
the wire: parse the URL, derive the connection key, and build the request
with `key.host` as the Host value.  Returned as the chunk list of
`build_request_bytes`. -/
def sendHttpRequestChunks (url : Str) (method : Str) (headers : HMap)
    (body : Option Str) : Except RouterError (List Str) :=
  match Url.parse url with
  | .error e => .error e
  | .ok u =>
    let key := connectionKeyFromUrl u
    .ok (buildRequestChunks method (pathWithQuery u) key.host headers body)

/-! ## Multipart model rewrite (`src/handlers/routes.rs`) -/

/-- `find_model_value_bounds` from `src/handlers/routes.rs`: locate the byte
span between `name="model"` + CRLFCRLF and the next CRLF (or end of
buffer). -/
def findModelValueBounds (body : Str) : Option (Nat × Nat) :=
  match findSegIdx body "name=\x22model\x22".data with
  | none => none
  | some markerIndex =>
    let afterMarker := markerIndex + 12
    let remainder := body.drop afterMarker
    match findSegIdx remainder "\r\n\r\n".data with
    | none => none
    | some separatorIndex =>
      let valueStart := afterMarker + separatorIndex + 4
      let rest := body.drop valueStart
      let valueEndRelative := (findSegIdx rest "\r\n".data).getD rest.length
      some (valueStart, valueStart + valueEndRelative)

/-- `extract_model_from_multipart` from `src/handlers/routes.rs` (the UTF-8
check is the identity in the character model). -/
def extractModelFromMultipart (body : Str) : Option Str :=
  (findModelValueBounds body).map (fun se => (body.drop se.1).take (se.2 - se.1))

/-- `replace_model_in_multipart` from `src/handlers/routes.rs`. -/
def replaceModelInMultipart (body : Str) (newModel : Str) : Str :=
  match findModelValueBounds body with
  | some se => body.take se.1 ++ newModel ++ body.drop se.2
  | none => body

/-- `rewrite_multipart_model` from `src/handlers/routes.rs`. -/
def rewriteMultipartModel (body : Str) (config : ApiConfig) : Str :=
  match extractModelFromMultipart body with
  | some originalModel =>
    match config.modelMapping with
    | some mapping =>
      match hmGet mapping originalModel with
      | some targetModel =>
        if targetModel ≠ originalModel then replaceModelInMultipart body targetModel
        else body
      | none => body
    | none => body
  | none => body

/-! ## Token-bucket rate limiter (`src/rate_limit.rs`), over `ℚ` -/

/-- `RateLimitSettings` from `src/rate_limit.rs` (`u32` fields). -/
structure RateLimitSettings where
  requestsPerMinute : Nat
  burst : Nat
deriving Repr, DecidableEq

/-- `RateLimitDecision` from `src/rate_limit.rs`. -/
inductive RateLimitDecision where
  | allowed
  | limited (retryAfterSeconds : Nat)
deriving Repr, DecidableEq

/-- `TokenBucket` from `src/rate_limit.rs`; the `f64` fields are modelled
over `ℚ` and the monotonic instant as a rational timestamp. -/
structure TokenBucket where
  tokens : ℚ
  capacity : ℚ
  refillPerSecond : ℚ
  lastRefill : ℚ
  settings : RateLimitSettings
deriving Repr, DecidableEq

/-- `TokenBucket::new`. -/
def TokenBucket.new (settings : RateLimitSettings) (now : ℚ) : TokenBucket :=
  let capacity : ℚ := settings.burst
  { tokens := capacity, capacity := capacity,
    refillPerSecond := (settings.requestsPerMinute : ℚ) / 60,
    lastRefill := now, settings := settings }

/-- `TokenBucket::update_settings`: on a settings change, install the new
capacity and refill rate, fill the bucket, and restart the refill clock. -/
def TokenBucket.updateSettings (b : TokenBucket) (settings : RateLimitSettings)
    (now : ℚ) : TokenBucket :=
  if b.settings ≠ settings then
    { settings := settings, capacity := (settings.burst : ℚ),
      refillPerSecond := (settings.requestsPerMinute : ℚ) / 60,
      tokens := (settings.burst : ℚ), lastRefill := now }
  else b

/-- `TokenBucket::refill`; `Instant::duration_since` yields a zero duration
when `now` is earlier than `last_refill`, hence the `max _ 0`. -/
def TokenBucket.refillStep (b : TokenBucket) (now : ℚ) : TokenBucket :=
  if b.capacity ≤ b.tokens then { b with lastRefill := now }
  else
    let elapsed := max (now - b.lastRefill) 0
    if elapsed ≤ 0 then b
    else { b with
           tokens := min (b.tokens + elapsed * b.refillPerSecond) b.capacity,
           lastRefill := now }

/-- `TokenBucket::try_consume`: refill, then either consume one token
(`none` = `Ok(())`) or report the retry delay (`some r` = `Err(r)`). -/
def TokenBucket.tryConsume (b : TokenBucket) (now : ℚ) :
    TokenBucket × Option Nat :=
  let b := b.refillStep now
  if 1 ≤ b.tokens then ({ b with tokens := b.tokens - 1 }, none)
  else
    let needed := 1 - b.tokens
    let retryAfter : Nat :=
      if 0 < b.refillPerSecond then (⌈needed / b.refillPerSecond⌉).toNat
      else 60
    (b, some (max retryAfter 1))

/-- The first two steps of `RateLimiter::check` on one bucket key: lazily
create the bucket (`entry().or_insert_with`), then reconcile settings. -/
def checkBucketPre (state : Option TokenBucket) (settings : RateLimitSettings)
    (now : ℚ) : TokenBucket :=
  (state.getD (TokenBucket.new settings now)).updateSettings settings now

/-- `RateLimiter::check` restricted to one bucket (checks on one
`(route, api_key)` key are serialized by the map entry lock): lazily create
the bucket, reconcile settings, and try to consume. -/
def checkBucket (state : Option TokenBucket) (settings : RateLimitSettings)
    (now : ℚ) : TokenBucket × RateLimitDecision :=
  match (checkBucketPre state settings now).tryConsume now with
  | (b, none) => (b, .allowed)
  | (b, some retry) => (b, .limited retry)

/-- The bucket well-formedness the code maintains: the claimed token range
invariant together with nonnegativity of the refill rate (every bucket the
code builds has `refill_per_second = requests_per_minute / 60 ≥ 0`). -/
def TokenBucket.Wf (b : TokenBucket) : Prop :=
  0 ≤ b.tokens ∧ b.tokens ≤ b.capacity ∧ 0 ≤ b.refillPerSecond

/-- A sequence of `check` calls on one bucket key, starting before the
bucket exists; each operation supplies the effective settings and the
current instant. -/
def runChecks (ops : List (RateLimitSettings × ℚ)) : Option TokenBucket :=
  ops.foldl (fun state op => some (checkBucket state op.1 op.2).1) none

/-! ## Route dispatcher accounting (`src/handlers/router.rs`) -/

/-- One `requests_total{route,method,status}` increment
(`record_request` in `src/metrics.rs`). -/
structure MetricsRow where
  route : Str
  method : Str
  status : Nat
deriving Repr, DecidableEq

/-- The error `load_api_config` (`src/config.rs`) returns: a read failure
or a parse failure, both mapped to 500 by `map_error_to_response`. -/
def configErrOf (parseFailure : Bool) (msg : String) : RouterError :=
  if parseFailure then .configParse msg else .configRead msg

/-- The completion paths of `handle_request` (`src/handlers/router.rs`),
one constructor per arm that writes a response and records metrics:
* `parseError`: `parse_http_request` failed (always a `BadRequest`);
* `health` / `metricsOk` / `metricsErr` / `models`: the three GET routes;
* `forwardConfigErr`: `load_api_config` failed on a forwarding route;
* `forwardLimited`: the rate limiter denied the request;
* `forwardOk` / `forwardHandlerErr`: `handle_route` returned `Ok` / `Err`;
* `notFound`: no route matched. -/
inductive DispatchOutcome where
  | parseError (msg : String)
  | health
  | metricsOk
  | metricsErr
  | models
  | forwardConfigErr (parseFailure : Bool) (msg : String)
  | forwardLimited (retryAfterSeconds : Nat)
  | forwardOk
  | forwardHandlerErr (err : RouterError)
  | notFound
deriving Repr, DecidableEq

/-- The `record_request` calls `handle_request` performs on each completion
path, in order (`src/handlers/router.rs`): note the hard-coded `500` on the
`handle_route` error path (line 236) and the hard-coded `400` on the parse
error path (line 89). -/
def recordedRows (routePath method : Str) : DispatchOutcome → List MetricsRow
  | .parseError _ => [⟨"/unknown".data, "UNKNOWN".data, 400⟩]
  | .health => [⟨"/health".data, "GET".data, 200⟩]
  | .metricsOk => [⟨"/metrics".data, "GET".data, 200⟩]
  | .metricsErr => [⟨"/metrics".data, "GET".data, 500⟩]
  | .models => [⟨"/v1/models".data, "GET".data, 200⟩]
  | .forwardConfigErr _ _ => [⟨routePath, "POST".data, 500⟩]
  | .forwardLimited _ => [⟨routePath, "POST".data, 429⟩]
  | .forwardOk => [⟨routePath, "POST".data, 200⟩]
  | .forwardHandlerErr _ => [⟨routePath, "POST".data, 500⟩]
  | .notFound => [⟨routePath, method, 404⟩]

/-- The status codes of the HTTP responses `handle_request` writes to the
client on each completion path, in order.  Error responses go through
`map_error_to_response`; on the `handle_route` error path the response is
written twice (`src/handlers/router.rs` lines 225-227 and 233-235). -/
def writtenStatuses : DispatchOutcome → List Nat
  | .parseError msg => [statusOfError (.badRequest msg)]
  | .health => [200]
  | .metricsOk => [200]
  | .metricsErr => [500]
  | .models => [200]
  | .forwardConfigErr parseFailure msg => [statusOfError (configErrOf parseFailure msg)]
  | .forwardLimited _ => [429]
  | .forwardOk => [200]
  | .forwardHandlerErr err => [statusOfError err, statusOfError err]
  | .notFound => [404]

/-! ## Supporting lemmas -/

theorem eqIgnoreAsciiCase_self (a : Str) : eqIgnoreAsciiCase a a = true := by
  simp [eqIgnoreAsciiCase]

theorem mem_of_hmGet_some {m : HMap} {k v : Str} (h : hmGet m k = some v) :
    (k, v) ∈ m := by
  unfold hmGet at h
  rcases hf : m.find? (fun p => p.1 = k) with _ | p
  · rw [hf] at h; cases h
  · rw [hf] at h
    have hpred := List.find?_some hf
    have hmem := List.mem_of_find?_eq_some hf
    simp only [decide_eq_true_eq] at hpred
    simp only [Option.map_some'] at h
    cases h
    obtain ⟨p1, p2⟩ := p
    cases hpred
    exact hmem

theorem hasHeaderCaseInsensitive_of_mem {m : HMap} {k v : Str}
    (h : (k, v) ∈ m) : hasHeaderCaseInsensitive m k = true := by
  unfold hasHeaderCaseInsensitive
  rw [List.any_eq_true]
  exact ⟨(k, v), h, eqIgnoreAsciiCase_self k⟩

theorem hmGet_cons (p : Str × Str) (t : HMap) (k : Str) :
    hmGet (p :: t) k = if p.1 = k then some p.2 else hmGet t k := by
  by_cases hp : p.1 = k <;> simp [hmGet, List.find?, hp]

theorem hmInsert_cons_ne (p : Str × Str) (t : HMap) {k : Str} (v : Str)
    (hp : p.1 ≠ k) : hmInsert (p :: t) k v = p :: hmInsert t k v := by
  by_cases ht : (t.any fun q => decide (q.1 = k)) = true <;>
    simp [hmInsert, hp, ht]

theorem hmInsert_cons_eq (p : Str × Str) (t : HMap) {k : Str} (v : Str)
    (hp : p.1 = k) :
    hmInsert (p :: t) k v =
      (k, v) :: t.map (fun q => if q.1 = k then (k, v) else q) := by
  unfold hmInsert
  simp [hp]

theorem hmGet_map_replace_ne (t : HMap) {k k0 : Str} (v : Str) (hne : k0 ≠ k) :
    hmGet (t.map (fun q => if q.1 = k0 then (k0, v) else q)) k = hmGet t k := by
  induction t with
  | nil => rfl
  | cons q t ih =>
    by_cases hq : q.1 = k0
    · have hqk : q.1 ≠ k := by rw [hq]; exact hne
      simp only [List.map_cons, hq, if_pos]
      rw [hmGet_cons, hmGet_cons]
      simp only [hqk, if_neg, hne, ih]
      simp [hne]
    · simp only [List.map_cons, hq, if_neg, ite_false]
      rw [hmGet_cons, hmGet_cons, ih]

theorem hmGet_hmInsert_self (m : HMap) (k v : Str) :
    hmGet (hmInsert m k v) k = some v := by
  induction m with
  | nil => simp [hmInsert, hmGet, List.find?]
  | cons p t ih =>
    by_cases hp : p.1 = k
    · rw [hmInsert_cons_eq p t v hp, hmGet_cons]
      simp
    · rw [hmInsert_cons_ne p t v hp, hmGet_cons, if_neg hp]
      exact ih

theorem hmGet_hmInsert_ne (m : HMap) {k k0 : Str} (v : Str) (hne : k0 ≠ k) :
    hmGet (hmInsert m k0 v) k = hmGet m k := by
  induction m with
  | nil => simp [hmInsert, hmGet, List.find?, hne]
  | cons p t ih =>
    by_cases hp : p.1 = k0
    · rw [hmInsert_cons_eq p t v hp, hmGet_cons, hmGet_cons]
      have hpk : p.1 ≠ k := by rw [hp]; exact hne
      simp only [hne, if_neg, hpk]
      exact hmGet_map_replace_ne t v hne
    · rw [hmInsert_cons_ne p t v hp, hmGet_cons, hmGet_cons]
      by_cases hpk : p.1 = k
      · simp [hpk]
      · simp only [hpk, if_neg]
        exact ih

theorem hmGet_fold_of_not_mem (l : HMap) (init : HMap) {k : Str}
    (h : k ∉ hmKeys l) :
    hmGet (l.foldl (fun m p => hmInsert m p.1 p.2) init) k = hmGet init k := by
  induction l generalizing init with
  | nil => rfl
  | cons p t ih =>
    simp only [hmKeys, List.map_cons, List.mem_cons, not_or] at h
    rw [List.foldl_cons, ih _ (by simpa [hmKeys] using h.2),
      hmGet_hmInsert_ne init p.2 (fun he => h.1 he.symm)]

theorem hmGet_fold_of_mem (l : HMap) :
    ∀ (init : HMap) (k v : Str), (hmKeys l).Nodup → (k, v) ∈ l →
      hmGet (l.foldl (fun m p => hmInsert m p.1 p.2) init) k = some v := by
  induction l with
  | nil => intro init k v _ hmem; cases hmem
  | cons p t ih =>
    intro init k v hnd hmem
    simp only [hmKeys, List.map_cons, List.nodup_cons] at hnd
    rcases List.mem_cons.mp hmem with he | ht
    · subst he
      rw [List.foldl_cons,
        hmGet_fold_of_not_mem t _ (by simpa [hmKeys] using hnd.1),
        hmGet_hmInsert_self]
    · rw [List.foldl_cons]
      exact ih _ k v (by simpa [hmKeys] using hnd.2) ht

theorem hasHeaderCaseInsensitive_of_get_some {m : HMap} {k v : Str}
    (h : hmGet m k = some v) : hasHeaderCaseInsensitive m k = true :=
  hasHeaderCaseInsensitive_of_mem (mem_of_hmGet_some h)

/-- Inserting under a key whose case-insensitive absence was just checked
cannot disturb a key that is present. -/
theorem hmGet_hmInsert_of_ci_absent {m : HMap} {k v : Str} (ck cv : Str)
    (h : hmGet m k = some v) (hci : hasHeaderCaseInsensitive m ck = false) :
    hmGet (hmInsert m ck cv) k = some v := by
  have hne : ck ≠ k := by
    intro he
    subst he
    rw [hasHeaderCaseInsensitive_of_get_some h] at hci
    cases hci
  rw [hmGet_hmInsert_ne m cv hne]
  exact h

theorem hmGet_copyHeaderIfPresent {m : HMap} {k v : Str}
    (c : HMap) (ck canonical : Str) (h : hmGet m k = some v) :
    hmGet (copyHeaderIfPresent m c ck canonical) k = some v := by
  unfold copyHeaderIfPresent
  split
  · rename_i hci
    simp only [Bool.not_eq_true'] at hci
    rcases hc : hmGet c ck with _ | value
    · simpa [hc] using h
    · simpa [hc] using hmGet_hmInsert_of_ci_absent canonical value h hci
  · exact h

/-- `splitOnceChar` is the split at the first occurrence of the separator. -/
theorem splitOnceChar_eq (l : List Char) (sep : Char) :
    splitOnceChar l sep =
      if l.any (· = sep) then
        some (l.takeWhile (· ≠ sep), (l.dropWhile (· ≠ sep)).tail)
      else none := by
  induction l with
  | nil => rfl
  | cons c rest ih =>
    by_cases hc : c = sep
    · subst hc
      simp [splitOnceChar, List.takeWhile, List.dropWhile]
    · simp only [splitOnceChar, hc, ite_false, ih]
      by_cases hr : rest.any (· = sep)
      · simp [hr, hc, List.takeWhile, List.dropWhile]
      · simp [hr, hc]

theorem splitCRLF_ne_nil (l : List Char) : splitCRLF l ≠ [] := by
  rw [splitCRLF.eq_def]
  split
  · simp
  · simp
  · split <;> simp

theorem splitWsAux_mem_ne_nil (l : List Char) :
    ∀ (cur : List Char) (t : List Char), t ∈ splitWsAux l cur → t ≠ [] := by
  induction l with
  | nil =>
    intro cur t ht
    rw [splitWsAux] at ht
    split at ht
    · cases ht
    · rename_i hcur
      rcases List.mem_singleton.mp ht with rfl
      simpa [List.isEmpty_iff] using hcur
  | cons c cs ih =>
    intro cur t ht
    rw [splitWsAux] at ht
    split at ht
    · split at ht
      · exact ih [] t ht
      · rename_i hcur
        rcases List.mem_cons.mp ht with rfl | hmem
        · simpa [List.isEmpty_iff] using hcur
        · exact ih [] t hmem
    · exact ih (c :: cur) t ht

theorem rustSplitWhitespace_mem_ne_nil {l t : List Char}
    (h : t ∈ rustSplitWhitespace l) : t ≠ [] :=
  splitWsAux_mem_ne_nil l [] t h

theorem startsWithSeg_length {l pat : List Char}
    (h : startsWithSeg l pat = true) : pat.length ≤ l.length := by
  induction pat generalizing l with
  | nil => exact Nat.zero_le _
  | cons p ps ih =>
    cases l with
    | nil => cases h
    | cons c cs =>
      simp only [startsWithSeg, Bool.and_eq_true] at h
      simpa using Nat.succ_le_succ (ih h.2)

theorem findSegIdx_add_length_le {l pat : List Char} {i : Nat}
    (h : findSegIdx l pat = some i) : i + pat.length ≤ l.length := by
  induction l generalizing i with
  | nil =>
    rw [findSegIdx] at h
    split at h
    · rename_i hs
      cases h
      simpa using startsWithSeg_length hs
    · cases h
  | cons c cs ih =>
    rw [findSegIdx] at h
    split at h
    · rename_i hs
      cases h
      simpa using startsWithSeg_length hs
    · rcases ho : findSegIdx cs pat with _ | j
      · rw [ho] at h; cases h
      · rw [ho] at h
        simp only [Option.map_some'] at h
        cases h
        have := ih ho
        simp only [List.length_cons]
        omega

/-- The bounds returned by `find_model_value_bounds` are ordered and end
within the buffer. -/
theorem findModelValueBounds_le {body : Str} {s e : Nat}
    (h : findModelValueBounds body = some (s, e)) :
    s ≤ e ∧ e ≤ body.length := by
  unfold findModelValueBounds at h
  rcases h1 : findSegIdx body "name=\x22model\x22".data with _ | markerIndex
  · rw [h1] at h; cases h
  · rw [h1] at h
    simp only at h
    rcases h2 : findSegIdx (body.drop (markerIndex + 12)) "\r\n\r\n".data
      with _ | separatorIndex
    · rw [h2] at h; cases h
    · rw [h2] at h
      simp only at h
      cases h
      have hm : markerIndex + 12 ≤ body.length := by
        simpa using findSegIdx_add_length_le h1
      have hsep : separatorIndex + 4 ≤ body.length - (markerIndex + 12) := by
        have := findSegIdx_add_length_le h2
        rwa [List.length_drop] at this
      constructor
      · exact Nat.le_add_right _ _
      · rcases h3 : findSegIdx
            (body.drop (markerIndex + 12 + separatorIndex + 4)) "\r\n".data
          with _ | rel
        · simp only [h3, Option.getD_none]
          rw [List.length_drop]
          omega
        · simp only [h3, Option.getD_some]
          have := findSegIdx_add_length_le h3
          rw [List.length_drop] at this
          omega

/-! ## Claim C3 -/

/-- C3 counterexample: for the upstream URL `http://example.com:8080/path`
the port 8080 is not the scheme default, yet the wire request's Host header
is `Host: example.com` — the port is never appended. -/
theorem host_header_omits_port_counterexample :
    (sendHttpRequestChunks "http://example.com:8080/path".data "POST".data []
        none).toOption.bind (fun chunks => chunks.get? 1) =
      some "Host: example.com\r\n".data ∧
    "Host: example.com\r\n".data ≠ "Host: example.com:8080\r\n".data :=
  ⟨by rfl, by decide⟩

/-- C3 amended: for every URL the HTTP client parses successfully, the Host
header of the wire request equals the bare host, with no port appended —
also when the connection port is not the scheme default. -/
theorem host_header_is_bare_host (url method : Str) (headers : HMap)
    (body : Option Str) (u : Url) (hp : Url.parse url = .ok u) :
    (sendHttpRequestChunks url method headers body).toOption.bind
        (fun chunks => chunks.get? 1) =
      some ("Host: ".data ++ u.host ++ "\r\n".data) := by
  unfold sendHttpRequestChunks
  rw [hp]
  rfl

/-- Witness for `host_header_is_bare_host` at a concrete URL. -/
theorem host_header_is_bare_host_witness :
    (sendHttpRequestChunks "https://api.example.com/v1/chat".data "POST".data
        [] none).toOption.bind (fun chunks => chunks.get? 1) =
      some ("Host: ".data ++ "api.example.com".data ++ "\r\n".data) :=
  host_header_is_bare_host "https://api.example.com/v1/chat".data "POST".data
    [] none
    { scheme := "https".data, host := "api.example.com".data, port := none,
      path := "/v1/chat".data, query := none } (by rfl)

/-! ## Claim C5 -/

/-- C5 counterexample: with the chained mapping `a ↦ b, b ↦ c`, applying
`map_model_name` twice to `a` yields `c` while applying it once yields `b`:
the model rewrite is not idempotent. -/
theorem mapModelName_not_idempotent :
    mapModelName
        { modelMapping := some [("a".data, "b".data), ("b".data, "c".data)] }
        (mapModelName
          { modelMapping := some [("a".data, "b".data), ("b".data, "c".data)] }
          "a".data) ≠
      mapModelName
        { modelMapping := some [("a".data, "b".data), ("b".data, "c".data)] }
        "a".data := by
  decide

/-- C5 amended: `map_model_name` is idempotent provided every mapped value
is itself unmapped or a fixed point of the mapping; a mapping whose image
meets its domain (a chain) breaks idempotence. -/
theorem mapModelName_idempotent (config : ApiConfig) (m : Str)
    (h : ∀ k v : Str, (k, v) ∈ config.modelMapping.getD [] →
        hmGet (config.modelMapping.getD []) v = none ∨
        hmGet (config.modelMapping.getD []) v = some v) :
    mapModelName config (mapModelName config m) = mapModelName config m := by
  unfold mapModelName
  rcases hmm : config.modelMapping with _ | mapping
  · simp [hmm]
  · rw [hmm] at h
    simp only [Option.getD_some] at h
    simp only [Option.some_bind]
    rcases hg : hmGet mapping m with _ | v
    · simp [hg]
    · have hmem := mem_of_hmGet_some hg
      rcases h m v hmem with h0 | h0 <;> simp [hg, h0]

/-- Witness for `mapModelName_idempotent` on the mapping `a ↦ b`. -/
theorem mapModelName_idempotent_witness :
    mapModelName { modelMapping := some [("a".data, "b".data)] }
        (mapModelName { modelMapping := some [("a".data, "b".data)] } "a".data) =
      mapModelName { modelMapping := some [("a".data, "b".data)] } "a".data :=
  mapModelName_idempotent _ "a".data (by
    intro k v hkv
    simp only [Option.getD_some, List.mem_singleton, Prod.mk.injEq] at hkv
    rcases hkv with ⟨-, hv⟩
    subst hv
    left
    decide)

/-! ## Claim C6 -/

/-- C6 counterexample: in `http://example.com?q=a/b` the `?` precedes the
`/`, yet the parser splits at the `/`: the authority keeps `?q=a`, the path
becomes `/b` and no query is extracted — not the claimed query `q=a/b`
with authority `example.com`. -/
theorem url_parse_question_mark_counterexample :
    Url.parse "http://example.com?q=a/b".data =
      .ok { scheme := "http".data, host := "example.com?q=a".data,
            port := none, path := "/b".data, query := none } ∧
    "example.com?q=a".data ≠ "example.com".data :=
  ⟨by rfl, by decide⟩

/-- C6 amended: after removing `scheme://`, the remainder is split at the
first `/` whenever one exists — even when a `?` comes earlier — and only a
remainder containing no `/` at all is split at the first `?` (query with
path `/`); otherwise the whole remainder is the authority. -/
theorem splitAuthority_first_slash_wins (rest : Str) :
    splitAuthority rest =
      if rest.any (· = '/') then
        (rest.takeWhile (· ≠ '/'), '/' :: (rest.dropWhile (· ≠ '/')).tail)
      else if rest.any (· = '?') then
        (rest.takeWhile (· ≠ '?'), '/' :: '?' :: (rest.dropWhile (· ≠ '?')).tail)
      else (rest, ['/']) := by
  unfold splitAuthority
  rw [splitOnceChar_eq rest '/', splitOnceChar_eq rest '?']
  by_cases h1 : rest.any (· = '/') <;> by_cases h2 : rest.any (· = '?') <;>
    simp [h1, h2]

/-! ## Claim C7 -/

/-- C7 counterexample: `GET / HTTP/1.1 EXTRA` has four whitespace-separated
fields, yet `parse_http_request` accepts it (using the first three), instead
of rejecting request lines that do not have exactly three fields. -/
theorem parse_http_request_four_fields_accepted :
    (rustSplitWhitespace "GET / HTTP/1.1 EXTRA".data).length = 4 ∧
    parseHttpRequest "GET / HTTP/1.1 EXTRA\r\n\r\n".data =
      .ok { method := "GET".data, target := "/".data,
            version := "HTTP/1.1".data, headers := [], body := [] } :=
  ⟨by rfl, by rfl⟩

/-- C7 amended: given a header terminator, the parser returns `BadRequest`
exactly when the request line has fewer than three whitespace-separated
fields; with three or more fields it succeeds, taking the first three as
method, target and version and ignoring the extras. -/
theorem parse_http_request_field_count (requestBytes : Str) (headerEnd : Nat)
    (hterm : findSegIdx requestBytes "\r\n\r\n".data = some headerEnd) :
    ((rustSplitWhitespace
        ((splitCRLF (requestBytes.take headerEnd)).headD [])).length < 3 →
      parseHttpRequest requestBytes =
        .error (.badRequest "Invalid request line")) ∧
    (3 ≤ (rustSplitWhitespace
        ((splitCRLF (requestBytes.take headerEnd)).headD [])).length →
      parseHttpRequest requestBytes =
        .ok { method := (rustSplitWhitespace
                ((splitCRLF (requestBytes.take headerEnd)).headD []))[0]?.getD [],
              target := (rustSplitWhitespace
                ((splitCRLF (requestBytes.take headerEnd)).headD []))[1]?.getD [],
              version := (rustSplitWhitespace
                ((splitCRLF (requestBytes.take headerEnd)).headD []))[2]?.getD [],
              headers := (splitCRLF (requestBytes.take headerEnd)).tail.foldl
                (fun acc line =>
                  match splitOnceChar line ':' with
                  | some (name, value) =>
                    hmInsert acc (rustToLowercase (rustTrim name)) (rustTrim value)
                  | none => acc)
                ([] : HMap),
              body := requestBytes.drop (headerEnd + 4) }) := by
  unfold parseHttpRequest
  rw [hterm]
  rcases hsp : splitCRLF (requestBytes.take headerEnd) with _ | ⟨line, restLines⟩
  · exact absurd hsp (splitCRLF_ne_nil _)
  · simp only [hsp, List.headD_cons, List.tail_cons]
    constructor
    · intro hlt
      rw [if_pos hlt]
    · intro hge
      rw [if_neg (Nat.not_lt.mpr hge)]

/-- Witness for `parse_http_request_field_count` on `INVALID\r\n\r\n`. -/
theorem parse_http_request_field_count_witness :
    ((rustSplitWhitespace
        ((splitCRLF (("INVALID\r\n\r\n".data).take 7)).headD [])).length < 3 →
      parseHttpRequest "INVALID\r\n\r\n".data =
        .error (.badRequest "Invalid request line")) ∧
    (3 ≤ (rustSplitWhitespace
        ((splitCRLF (("INVALID\r\n\r\n".data).take 7)).headD [])).length →
      parseHttpRequest "INVALID\r\n\r\n".data =
        .ok { method := (rustSplitWhitespace
                ((splitCRLF (("INVALID\r\n\r\n".data).take 7)).headD []))[0]?.getD [],
              target := (rustSplitWhitespace
                ((splitCRLF (("INVALID\r\n\r\n".data).take 7)).headD []))[1]?.getD [],
              version := (rustSplitWhitespace
                ((splitCRLF (("INVALID\r\n\r\n".data).take 7)).headD []))[2]?.getD [],
              headers := (splitCRLF (("INVALID\r\n\r\n".data).take 7)).tail.foldl
                (fun acc line =>
                  match splitOnceChar line ':' with
                  | some (name, value) =>
                    hmInsert acc (rustToLowercase (rustTrim name)) (rustTrim value)
                  | none => acc)
                ([] : HMap),
              body := ("INVALID\r\n\r\n".data).drop (7 + 4) }) :=
  parse_http_request_field_count "INVALID\r\n\r\n".data 7 (by rfl)

/-! ## Claim C10 -/

/-- C10: the credential extracted from the client headers is the second
whitespace token of the Authorization value for a (case-insensitive) Bearer
scheme, the whole trimmed value for any other scheme, and the default API
key when the header is absent, trims to empty, or is a Bearer header with
no token. -/
theorem extract_client_api_key_cases (headers : HMap) (defaultApiKey : Str) :
    extractClientApiKey headers defaultApiKey =
      match hmGet headers "authorization".data with
      | none => defaultApiKey
      | some raw =>
        if rustTrim raw = [] then defaultApiKey
        else if eqIgnoreAsciiCase
            ((rustSplitWhitespace (rustTrim raw))[0]?.getD []) "bearer".data then
          match (rustSplitWhitespace (rustTrim raw))[1]? with
          | some token => token
          | none => defaultApiKey
        else rustTrim raw := by
  unfold extractClientApiKey parseAuthorizationHeader
  rcases hg : hmGet headers "authorization".data with _ | raw
  · rfl
  · simp only [Option.some_bind]
    by_cases ht : rustTrim raw = []
    · simp [ht]
    · by_cases hb : eqIgnoreAsciiCase
          ((rustSplitWhitespace (rustTrim raw))[0]?.getD []) "bearer".data = true
      · rcases h1 : (rustSplitWhitespace (rustTrim raw))[1]? with _ | tok
        · simp [ht, hb, h1, List.isEmpty_iff]
        · have htok2 : tok.isEmpty = false := by
            simpa [List.isEmpty_iff] using
              rustSplitWhitespace_mem_ne_nil (List.getElem?_mem h1)
          simp [ht, hb, h1, htok2, Option.filter, List.isEmpty_iff]
      · simp [ht, hb, Option.filter, List.isEmpty_iff]

/-! ## Claim C2 -/

/-- C2 counterexample: with global header `accept: a` and endpoint header
`Accept: b`, the merged headers keep BOTH entries — the global value is
still reachable under `accept` and the name occurs twice case-insensitively
— so the endpoint does not override the global on a case-insensitive name
match. -/
theorem build_upstream_headers_ci_counterexample :
    hmGet (buildUpstreamHeaders { headers := [("accept".data, "a".data)] }
        { headers := [("Accept".data, "b".data)] } [] "k".data none)
        "accept".data = some "a".data ∧
    ((buildUpstreamHeaders { headers := [("accept".data, "a".data)] }
        { headers := [("Accept".data, "b".data)] } [] "k".data none).filter
      (fun p => eqIgnoreAsciiCase p.1 "accept".data)).length = 2 :=
  ⟨by rfl, by rfl⟩

/-- C2 amended: the planner layers global headers first, then endpoint
headers, but the override happens on exact name match only: every endpoint
header name maps to the endpoint value, and a global header survives with
its value unless its exact name is also an endpoint header name. -/
theorem build_upstream_headers_exact_override (config : ApiConfig)
    (endpoint : EndpointConfig) (clientHeaders : HMap) (defaultApiKey : Str)
    (k v : Str)
    (hgnd : (hmKeys config.headers).Nodup)
    (hend : (hmKeys endpoint.headers).Nodup)
    (hkv : (k, v) ∈ endpoint.headers ∨
      ((k, v) ∈ config.headers ∧ k ∉ hmKeys endpoint.headers)) :
    hmGet (buildUpstreamHeaders config endpoint clientHeaders defaultApiKey
      none) k = some v := by
  have hbase : hmGet (endpoint.headers.foldl (fun m p => hmInsert m p.1 p.2)
      (config.headers.foldl (fun m p => hmInsert m p.1 p.2) [])) k = some v := by
    rcases hkv with he | ⟨hcm, hnk⟩
    · exact hmGet_fold_of_mem endpoint.headers _ k v hend he
    · rw [hmGet_fold_of_not_mem endpoint.headers _ hnk]
      exact hmGet_fold_of_mem config.headers _ k v hgnd hcm
  simp only [buildUpstreamHeaders]
  apply hmGet_copyHeaderIfPresent
  apply hmGet_copyHeaderIfPresent
  apply hmGet_copyHeaderIfPresent
  split
  · rename_i hci
    simp only [Bool.not_eq_true'] at hci
    rcases hca : hmGet clientHeaders "authorization".data with _ | auth
    · exact hmGet_hmInsert_of_ci_absent _ _ hbase hci
    · exact hmGet_hmInsert_of_ci_absent _ _ hbase hci
  · exact hbase

/-- Witness for `build_upstream_headers_exact_override`: the endpoint's
`Accept: b` wins over the global (exact-name) `Accept: a`. -/
theorem build_upstream_headers_exact_override_witness :
    hmGet (buildUpstreamHeaders { headers := [("Accept".data, "a".data)] }
        { headers := [("Accept".data, "b".data)] } [] "k".data none)
        "Accept".data = some "b".data :=
  build_upstream_headers_exact_override
    { headers := [("Accept".data, "a".data)] }
    { headers := [("Accept".data, "b".data)] } [] "k".data
    "Accept".data "b".data (by decide) (by decide)
    (Or.inl (by simp))

/-! ## Claim C9 -/

/-- C9: the multipart model rewrite is byte-equal to the input outside the
model-value span: when the value bounds are found, the output is the
input's bytes up to the value start, then either the original or the mapped
model bytes, then the input's bytes from the value end; when the bounds are
absent or no substitution applies the output is the input in full. -/
theorem rewrite_multipart_model_frame (body : Str) (config : ApiConfig) :
    match findModelValueBounds body with
    | none => rewriteMultipartModel body config = body
    | some (s, e) =>
      body = body.take s ++ (body.drop s).take (e - s) ++ body.drop e ∧
      (rewriteMultipartModel body config = body ∨
       rewriteMultipartModel body config =
         body.take s ++
           (hmGet (config.modelMapping.getD [])
             ((body.drop s).take (e - s))).getD
             ((body.drop s).take (e - s)) ++ body.drop e) := by
  rcases hb : findModelValueBounds body with _ | ⟨s, e⟩
  · simp only
    unfold rewriteMultipartModel extractModelFromMultipart
    rw [hb]
    rfl
  · simp only
    have hse := (findModelValueBounds_le hb).1
    constructor
    · have h2 : body.drop e = (body.drop s).drop (e - s) := by
        rw [List.drop_drop]
        congr 1
        omega
      calc body = body.take s ++ body.drop s :=
            (List.take_append_drop s body).symm
        _ = body.take s ++
              ((body.drop s).take (e - s) ++ (body.drop s).drop (e - s)) := by
            rw [List.take_append_drop (e - s) (body.drop s)]
        _ = body.take s ++ (body.drop s).take (e - s) ++ body.drop e := by
            rw [h2, List.append_assoc]
    · rcases hmm : config.modelMapping with _ | mapping
      · left
        unfold rewriteMultipartModel extractModelFromMultipart
        rw [hb, hmm]
        simp
      · rcases hg : hmGet mapping ((body.drop s).take (e - s)) with _ | tgt
        · left
          unfold rewriteMultipartModel extractModelFromMultipart
          rw [hb, hmm]
          simp [hg]
        · by_cases hne : tgt ≠ (body.drop s).take (e - s)
          · right
            unfold rewriteMultipartModel extractModelFromMultipart
              replaceModelInMultipart
            rw [hb, hmm]
            simp only [Option.map_some', Option.getD_some, hg]
            rw [if_pos hne]
          · left
            unfold rewriteMultipartModel extractModelFromMultipart
            rw [hb, hmm]
            simp only [Option.map_some', hg]
            rw [if_neg hne]

/-! ## Claim C4 -/

/-- `refillStep` never changes the refill rate. -/
theorem refillStep_refillPerSecond (b : TokenBucket) (now : ℚ) :
    (b.refillStep now).refillPerSecond = b.refillPerSecond := by
  simp only [TokenBucket.refillStep]
  split
  · rfl
  · split <;> rfl

/-- Unfolded form of `try_consume`. -/
theorem tryConsume_eq (b : TokenBucket) (now : ℚ) :
    b.tryConsume now =
      if 1 ≤ (b.refillStep now).tokens then
        ({ b.refillStep now with tokens := (b.refillStep now).tokens - 1 },
         none)
      else
        (b.refillStep now,
         some (max (if 0 < (b.refillStep now).refillPerSecond then
             ⌈((1 : ℚ) - (b.refillStep now).tokens) /
               (b.refillStep now).refillPerSecond⌉.toNat
           else 60) 1)) := by
  simp only [TokenBucket.tryConsume]

/-- `check` maps the `Ok`/`Err` of `try_consume` to `Allowed`/`Limited`. -/
theorem checkBucket_eq (state : Option TokenBucket)
    (settings : RateLimitSettings) (now : ℚ) :
    checkBucket state settings now =
      (((checkBucketPre state settings now).tryConsume now).1,
       match ((checkBucketPre state settings now).tryConsume now).2 with
       | none => .allowed
       | some r => .limited r) := by
  unfold checkBucket
  rcases hc : (checkBucketPre state settings now).tryConsume now with ⟨b1, _ | r⟩ <;>
    rfl

/-- Every bucket `check` operates on has a positive refill rate when the
effective `requests_per_minute` is positive and any pre-existing bucket
state carries the rate `requests_per_minute / 60` of its own settings. -/
theorem checkBucketPre_refill_pos (state : Option TokenBucket)
    (settings : RateLimitSettings) (now : ℚ)
    (hrpm : 0 < settings.requestsPerMinute)
    (hwf : ∀ b0, state = some b0 →
      b0.refillPerSecond = (b0.settings.requestsPerMinute : ℚ) / 60 ∧
      0 < b0.settings.requestsPerMinute) :
    0 < (checkBucketPre state settings now).refillPerSecond := by
  have hpos : (0 : ℚ) < (settings.requestsPerMinute : ℚ) / 60 := by
    apply div_pos _ (by norm_num)
    exact_mod_cast hrpm
  rcases state with _ | b
  · simp only [checkBucketPre, Option.getD_none, TokenBucket.updateSettings]
    split
    · exact hpos
    · simpa [TokenBucket.new] using hpos
  · simp only [checkBucketPre, Option.getD_some, TokenBucket.updateSettings]
    split
    · exact hpos
    · obtain ⟨hw1, hw2⟩ := hwf b rfl
      rw [hw1]
      apply div_pos _ (by norm_num)
      exact_mod_cast hw2

/-- C4: on a well-formed bucket with positive `requests_per_minute`, the
rate-limiter check first refills; if the refilled bucket holds at least one
token it consumes exactly one and returns `Allowed`, otherwise it leaves
the bucket as refilled and returns `Limited` with
`retry_after_seconds = max(1, ceil((1 − tokens) / refill_per_second))`. -/
theorem check_decision_spec (state : Option TokenBucket)
    (settings : RateLimitSettings) (now : ℚ)
    (hrpm : 0 < settings.requestsPerMinute)
    (hwf : ∀ b0, state = some b0 →
      b0.refillPerSecond = (b0.settings.requestsPerMinute : ℚ) / 60 ∧
      0 < b0.settings.requestsPerMinute) :
    ((1 : ℚ) ≤ ((checkBucketPre state settings now).refillStep now).tokens →
      checkBucket state settings now =
        ({ (checkBucketPre state settings now).refillStep now with
            tokens :=
              ((checkBucketPre state settings now).refillStep now).tokens - 1 },
         .allowed)) ∧
    (((checkBucketPre state settings now).refillStep now).tokens < 1 →
      checkBucket state settings now =
        ((checkBucketPre state settings now).refillStep now,
         .limited (max 1
           (⌈((1 : ℚ) -
                ((checkBucketPre state settings now).refillStep now).tokens) /
              ((checkBucketPre state settings now).refillStep
                now).refillPerSecond⌉.toNat)))) := by
  have hpos : 0 < ((checkBucketPre state settings now).refillStep
      now).refillPerSecond := by
    rw [refillStep_refillPerSecond]
    exact checkBucketPre_refill_pos state settings now hrpm hwf
  constructor
  · intro h
    rw [checkBucket_eq, tryConsume_eq, if_pos h]
  · intro h
    rw [checkBucket_eq, tryConsume_eq, if_neg (not_le.mpr h), if_pos hpos,
      Nat.max_comm]

/-- Witness for `check_decision_spec`: a fresh bucket with burst 1. -/
theorem check_decision_spec_witness :
    ((1 : ℚ) ≤ ((checkBucketPre none ⟨1, 1⟩ 0).refillStep 0).tokens →
      checkBucket none ⟨1, 1⟩ 0 =
        ({ (checkBucketPre none ⟨1, 1⟩ 0).refillStep 0 with
            tokens :=
              ((checkBucketPre none ⟨1, 1⟩ 0).refillStep 0).tokens - 1 },
         .allowed)) ∧
    (((checkBucketPre none ⟨1, 1⟩ 0).refillStep 0).tokens < 1 →
      checkBucket none ⟨1, 1⟩ 0 =
        ((checkBucketPre none ⟨1, 1⟩ 0).refillStep 0,
         .limited (max 1
           (⌈((1 : ℚ) - ((checkBucketPre none ⟨1, 1⟩ 0).refillStep 0).tokens) /
              ((checkBucketPre none ⟨1, 1⟩ 0).refillStep
                0).refillPerSecond⌉.toNat)))) :=
  check_decision_spec none ⟨1, 1⟩ 0 (by decide) (fun b0 hb0 => nomatch hb0)

/-! ## Claim C8 -/

theorem wf_new (settings : RateLimitSettings) (now : ℚ) :
    (TokenBucket.new settings now).Wf := by
  simp only [TokenBucket.new, TokenBucket.Wf]
  refine ⟨Nat.cast_nonneg _, le_refl _, by positivity⟩

theorem wf_updateSettings {b : TokenBucket} (settings : RateLimitSettings)
    (now : ℚ) (h : b.Wf) : (b.updateSettings settings now).Wf := by
  simp only [TokenBucket.updateSettings]
  split
  · exact ⟨Nat.cast_nonneg _, le_refl _, by positivity⟩
  · exact h

theorem wf_refillStep {b : TokenBucket} (now : ℚ) (h : b.Wf) :
    (b.refillStep now).Wf := by
  obtain ⟨h0, h1, h2⟩ := h
  simp only [TokenBucket.refillStep]
  split
  · exact ⟨h0, h1, h2⟩
  · split
    · exact ⟨h0, h1, h2⟩
    · refine ⟨?_, ?_, h2⟩
      · refine le_min (add_nonneg h0 (mul_nonneg (le_max_right _ _) h2)) ?_
        exact le_trans h0 h1
      · exact min_le_right _ _

theorem wf_tryConsume {b : TokenBucket} (now : ℚ) (h : b.Wf) :
    ((b.tryConsume now).1).Wf := by
  have hr := wf_refillStep now h
  obtain ⟨h0, h1, h2⟩ := hr
  rw [tryConsume_eq]
  split
  · rename_i hge
    refine ⟨?_, ?_, ?_⟩
    · show (0 : ℚ) ≤ (b.refillStep now).tokens - 1
      linarith
    · show (b.refillStep now).tokens - 1 ≤ (b.refillStep now).capacity
      linarith
    · show (0 : ℚ) ≤ (b.refillStep now).refillPerSecond
      exact h2
  · exact ⟨h0, h1, h2⟩

theorem wf_checkBucket (state : Option TokenBucket)
    (settings : RateLimitSettings) (now : ℚ)
    (h : ∀ b0, state = some b0 → b0.Wf) :
    ((checkBucket state settings now).1).Wf := by
  have hpre : (checkBucketPre state settings now).Wf := by
    unfold checkBucketPre
    rcases state with _ | b
    · exact wf_updateSettings settings now (wf_new settings now)
    · exact wf_updateSettings settings now (h b rfl)
  have hcons := wf_tryConsume now hpre
  rw [checkBucket_eq]
  exact hcons

/-- C8: starting before the bucket exists, every sequence of rate-limiter
checks (lazy creation, settings resets, refills, consumptions) leaves the
bucket satisfying `0 ≤ tokens ≤ capacity`. -/
theorem bucket_invariant (ops : List (RateLimitSettings × ℚ))
    (b : TokenBucket) (h : runChecks ops = some b) :
    0 ≤ b.tokens ∧ b.tokens ≤ b.capacity := by
  have key : ∀ (l : List (RateLimitSettings × ℚ)) (state : Option TokenBucket),
      (∀ b0, state = some b0 → b0.Wf) →
      ∀ b1, l.foldl (fun st op => some (checkBucket st op.1 op.2).1) state =
        some b1 → b1.Wf := by
    intro l
    induction l with
    | nil =>
      intro state hst b1 hb1
      exact hst b1 hb1
    | cons op t ih =>
      intro state hst b1 hb1
      rw [List.foldl_cons] at hb1
      refine ih _ ?_ b1 hb1
      intro b0 hb0
      cases hb0
      exact wf_checkBucket state op.1 op.2 hst
  have := key ops none (fun b0 hb0 => nomatch hb0) b h
  exact ⟨this.1, this.2.1⟩

/-- Witness for `bucket_invariant`: one check on a fresh burst-1 bucket. -/
theorem bucket_invariant_witness :
    0 ≤ (TokenBucket.mk 0 1 (1 / 60) 0 ⟨1, 1⟩).tokens ∧
    (TokenBucket.mk 0 1 (1 / 60) 0 ⟨1, 1⟩).tokens ≤
      (TokenBucket.mk 0 1 (1 / 60) 0 ⟨1, 1⟩).capacity := by
  refine bucket_invariant [(⟨1, 1⟩, 0)] _ ?_
  have h0 : TokenBucket.new ⟨1, 1⟩ 0 = TokenBucket.mk 1 1 (1 / 60) 0 ⟨1, 1⟩ := by
    simp [TokenBucket.new]
  have h1 : checkBucketPre none ⟨1, 1⟩ 0 =
      TokenBucket.mk 1 1 (1 / 60) 0 ⟨1, 1⟩ := by
    simp [checkBucketPre, h0, TokenBucket.updateSettings]
  have h2 : (TokenBucket.mk 1 1 (1 / 60) 0 ⟨1, 1⟩ : TokenBucket).refillStep 0 =
      TokenBucket.mk 1 1 (1 / 60) 0 ⟨1, 1⟩ := by
    simp [TokenBucket.refillStep]
  have h3 : (TokenBucket.mk 1 1 (1 / 60) 0 ⟨1, 1⟩ : TokenBucket).tryConsume 0 =
      (TokenBucket.mk 0 1 (1 / 60) 0 ⟨1, 1⟩, none) := by
    rw [tryConsume_eq, h2]
    norm_num
  rw [show runChecks [(⟨1, 1⟩, 0)] = some (checkBucket none ⟨1, 1⟩ 0).1 from rfl,
    checkBucket_eq, h1, h3]

/-! ## Claim C1 -/

/-- C1 counterexample: when `handle_route` fails with a `BadRequest` (for
example an empty body on a forwarding route), the dispatcher writes the 400
error response — twice, in fact — but records the single `requests_total`
row with the hard-coded status 500, not the 400 actually written. -/
theorem request_metrics_status_counterexample :
    writtenStatuses (.forwardHandlerErr (.badRequest "Empty request body")) =
      [400, 400] ∧
    recordedRows "/v1/chat/completions".data "POST".data
        (.forwardHandlerErr (.badRequest "Empty request body")) =
      [⟨"/v1/chat/completions".data, "POST".data, 500⟩] ∧
    (400 : Nat) ≠ 500 :=
  ⟨rfl, rfl, by decide⟩

/-- C1 amended: each completion path of the dispatcher records exactly one
`requests_total` row; on every path other than a `handle_route` error the
row's status equals the status of the single response written, while on a
handler error the mapped error response (400, 500 or 502 by the taxonomy)
is written twice and the row's status is always 500. -/
theorem request_metrics_row (routePath method : Str) (o : DispatchOutcome) :
    (recordedRows routePath method o).length = 1 ∧
    (match o with
     | .forwardHandlerErr err =>
       writtenStatuses o = [statusOfError err, statusOfError err] ∧
       (recordedRows routePath method o).map (·.status) = [500]
     | _ =>
       writtenStatuses o = (recordedRows routePath method o).map (·.status)) := by
  rcases o with msg | _ | _ | _ | _ | ⟨pf, msg⟩ | r | _ | err | _
  case forwardConfigErr =>
    cases pf <;>
      simp [recordedRows, writtenStatuses, statusOfError, configErrOf]
  all_goals simp [recordedRows, writtenStatuses, statusOfError]

end ApiRouter
